import Mathlib

/-!
# EF-Memory log engine — verification development

Shallow embedding of the log-reconciliation / sync subsystem of the
EF-Memory repository:

* the Log Reader `load_events_latest_wins` (src/.memory/lib/events_io.py),
* the Sync Engine `sync_embeddings` (src/.memory/lib/sync.py),
* the batch validator `batch_validate` (src/.memory/lib/scanner.py),
* the compaction entry point (src/.memory/scripts/compact_cli.py).

Modelling conventions:

* A log file is `Option (List Line)`: `none` is a missing file, `some lines`
  is the file's newline-terminated lines in order.  Each `Line` keeps its
  parse classification (blank after strip / malformed JSON / a parsed
  record) together with the UTF-8 byte length of its raw text, so byte
  offsets and file sizes are computable.  A seek that lands strictly inside
  a line leaves an unparseable partial line; the engine itself only ever
  seeks to line-aligned offsets (a stored end-of-file cursor), where this
  refinement is exact.
* JSON parsing of a line is an external concern; a line's classification
  records its outcome.  An entry whose `id` key is missing or empty is
  modelled by `id = ""` (Python falsiness of `entry.get("id")`).
* The SHA-256 fingerprint `_compute_text_hash` calls the `hashlib` library;
  its only property used by the code is that it is a deterministic function
  of the text, so it is threaded through as an arbitrary `String → String`
  parameter `hash` that every theorem quantifies over.
* `duration_ms` (wall-clock time) is not modelled.
-/

namespace EFMemory

/-- An entry record, from spec §3 and the fields the embedded code reads
(`id`, `deprecated`, title/content/rule/tags for the canonical texts,
`created_at` for archive bucketing).  Category tags, provenance and the
other fields of §3 are carried by no claim and are omitted.  `meta_line`
models the `_line` key added by the reader when `track_lines` is set. -/
structure Entry where
  id : String
  title : String
  content : List String
  rule : String
  tags : List String
  created_at : String
  deprecated : Bool
  meta_line : Option Nat
deriving DecidableEq

/-- Parse classification of one raw line of the log file. -/
inductive LineData where
  | blank : LineData
  | malformed : LineData
  | record : Entry → LineData
deriving DecidableEq

/-- One newline-terminated line of the log file: its parse classification
and the UTF-8 byte length of its text (the trailing newline excluded). -/
structure Line where
  data : LineData
  bytes : Nat
deriving DecidableEq

/-- Size in bytes of the whole file (every line is newline-terminated). -/
def fileSize (lines : List Line) : Nat :=
  (lines.map (fun l => l.bytes + 1)).sum

/-- Drop `k` bytes from the front of the file, as `f.seek(k)` does before
line iteration.  Landing strictly inside a line leaves an unparseable
partial line of the remaining bytes. -/
def dropBytes : Nat → List Line → List Line
  | _, [] => []
  | k, l :: rest =>
    if k = 0 then l :: rest
    else if l.bytes + 1 ≤ k then dropBytes (k - (l.bytes + 1)) rest
    else ⟨LineData.malformed, l.bytes - k⟩ :: rest

/-- Association-list lookup (Python `dict` access). -/
def alookup {α : Type} (k : String) : List (String × α) → Option α
  | [] => none
  | p :: rest => if p.1 = k then some p.2 else alookup k rest

/-- Association-list write `d[k] = v` with Python `dict` semantics: an
existing key keeps its position, a new key is appended. -/
def aupsert {α : Type} (k : String) (v : α) (l : List (String × α)) :
    List (String × α) :=
  if l.any (fun p => p.1 = k) then
    l.map (fun p => if p.1 = k then (k, v) else p)
  else l ++ [(k, v)]

/-- One iteration of the standard-path loop of `load_events_latest_wins`
(events_io.py lines 74–89): skip blank lines, skip lines before
`start_line`, skip unparseable lines and records without an id, otherwise
write the entry (annotated with its line index when `track_lines`). -/
def procLine (track_lines : Bool) (start_line : Nat) (i : Nat)
    (entries : List (String × Entry)) (l : Line) : List (String × Entry) :=
  match l.data with
  | LineData.blank => entries
  | LineData.malformed => entries
  | LineData.record e =>
    if i < start_line then entries
    else if e.id ≠ "" then
      aupsert e.id (if track_lines then { e with meta_line := some i } else e) entries
    else entries

/-- The standard-path loop of `load_events_latest_wins`, scanning from the
beginning with an enumeration index. -/
def scanLines (track_lines : Bool) (start_line : Nat) :
    List Line → Nat → List (String × Entry) → List (String × Entry)
  | [], _, entries => entries
  | l :: rest, i, entries =>
    scanLines track_lines start_line rest (i + 1)
      (procLine track_lines start_line i entries l)

/-- The fast-path loop of `load_events_latest_wins` (events_io.py lines
58–68): reads from the seek position, no line tracking, no `start_line`. -/
def scanSeek : List Line → List (String × Entry) → List (String × Entry)
  | [], entries => entries
  | l :: rest, entries =>
    match l.data with
    | LineData.record e =>
      scanSeek rest (if e.id ≠ "" then aupsert e.id e entries else entries)
    | _ => scanSeek rest entries

/-- `load_events_latest_wins` (events_io.py lines 20–96).
Returns `(entries, total_lines, end_byte_offset)`.  A missing file gives
the empty result.  With `byte_offset > 0` the reader seeks there, scans to
end-of-file, then re-counts the lines of the whole file (the source's
"backward compat" count); otherwise it scans from the beginning.  The end
offset is always the file size. -/
def load_events_latest_wins (events_path : Option (List Line))
    (start_line : Nat) (track_lines : Bool) (byte_offset : Nat) :
    List (String × Entry) × Nat × Nat :=
  match events_path with
  | none => ([], 0, 0)
  | some lines =>
    if 0 < byte_offset then
      (scanSeek (dropBytes byte_offset lines) [], lines.length, fileSize lines)
    else
      (scanLines track_lines start_line lines 0 [], lines.length, fileSize lines)

/-- `load_events_latest_wins` under an injected I/O fault in the
standard path: the OS delivers `failAfter` lines of the file and then
raises `OSError`, which the reader swallows (events_io.py lines 93–94),
returning what it accumulated; `end_offset` keeps its initial `0` because
the failure precedes the final size-taking seek.  `failAfter = 0` is a
failure at `open` itself (the repository's own error-handling test).  With
`failAfter ≥` the number of lines no fault fires and the read completes
normally. -/
def load_events_latest_wins_osfail (events_path : Option (List Line))
    (start_line : Nat) (track_lines : Bool) (failAfter : Nat) :
    List (String × Entry) × Nat × Nat :=
  match events_path with
  | none => ([], 0, 0)
  | some lines =>
    if failAfter < lines.length then
      (scanLines track_lines start_line (lines.take failAfter) 0 [], failAfter, 0)
    else
      load_events_latest_wins events_path start_line track_lines 0

/-- Result of embedding one text (spec §6: `embed_documents` returns a
list of vector/dimension pairs). -/
structure EmbedResult where
  vector : List Int
  dimensions : Nat
deriving DecidableEq

/-- The optional embedding provider (spec §6): a capability interface with
a provider/model identity and a batch embed call that either returns one
result per text or fails with an error message.  The call is modelled as a
pure function: the provider is an external collaborator and a run observes
only its outcomes. -/
structure Embedder where
  provider_id : String
  model_name : String
  embed_documents : List String → Except String (List EmbedResult)

/-- Modelled from the spec: a SyncRecord (spec §3) held by the secondary
store for one id — content fingerprint, provider identity, and the stored
vector with its deprecation flag.  `vectordb.py` is not part of src/. -/
structure VecRecord where
  text_hash : String
  provider : String
  model : String
  dimensions : Nat
  embedding : List Int
  deprecated : Bool
deriving DecidableEq

/-- Full-text projection row for one id (spec §6 `upsert_fts`). -/
structure FtsRow where
  title : String
  text : String
  tags : List String
deriving DecidableEq

/-- Modelled from the spec: the secondary store (spec §3/§6), holding the
persisted sync cursor, the SyncRecord table and the full-text projection.
`vectordb.py` is not part of src/; the operations below realise exactly
the interface spec §6 lists.  `begin_batch`/`end_batch` are transaction
grouping with no visible state effect and are modelled as the identity. -/
structure VectorDB where
  sync_cursor : Option Nat
  vectors : List (String × VecRecord)
  fts : List (String × FtsRow)
deriving DecidableEq

/-- Modelled from the spec: read the persisted cursor (absent on first run). -/
def VectorDB.get_sync_cursor (db : VectorDB) : Option Nat :=
  db.sync_cursor

/-- Modelled from the spec: persist the cursor byte offset. -/
def VectorDB.set_sync_cursor (db : VectorDB) (offset : Nat) : VectorDB :=
  { db with sync_cursor := some offset }

/-- Modelled from the spec: whether a SyncRecord exists for this id. -/
def VectorDB.has_vector (db : VectorDB) (entry_id : String) : Bool :=
  (alookup entry_id db.vectors).isSome

/-- Modelled from the spec: an id needs (re)indexing when it has no
SyncRecord yet or its stored `text_hash` differs (spec §4.2 step 3). -/
def VectorDB.needs_update (db : VectorDB) (entry_id : String) (h : String) : Bool :=
  match alookup entry_id db.vectors with
  | none => true
  | some r => r.text_hash != h

/-- Modelled from the spec: flag an id's SyncRecord deprecated
(idempotent; a record is never deleted, spec §3). -/
def VectorDB.mark_deprecated (db : VectorDB) (entry_id : String) : VectorDB :=
  { db with vectors := db.vectors.map (fun p =>
      if p.1 = entry_id then (p.1, { p.2 with deprecated := true }) else p) }

/-- Modelled from the spec: remove an id's full-text projection. -/
def VectorDB.delete_fts (db : VectorDB) (entry_id : String) : VectorDB :=
  { db with fts := db.fts.filter (fun p => p.1 != entry_id) }

/-- Modelled from the spec: write an id's full-text projection. -/
def VectorDB.upsert_fts (db : VectorDB) (entry_id : String) (row : FtsRow) : VectorDB :=
  { db with fts := aupsert entry_id row db.fts }

/-- Modelled from the spec: write an id's SyncRecord (vector + metadata). -/
def VectorDB.upsert_vector (db : VectorDB) (entry_id : String) (r : VecRecord) : VectorDB :=
  { db with vectors := aupsert entry_id r db.vectors }

/-- Modelled from the spec: the canonicalized sync text over an entry's
fields (spec §4.2 step 3); `text_builder.py` is not part of src/. -/
def build_embedding_text (e : Entry) : String :=
  e.title ++ "\n" ++ e.rule ++ "\n" ++ String.intercalate "\n" e.content
    ++ "\n" ++ String.intercalate " " e.tags

/-- Modelled from the spec: the full-text projection fields of an entry
(title, body text, tags); `text_builder.py` is not part of src/. -/
def build_fts_fields (e : Entry) : FtsRow :=
  ⟨e.title, String.intercalate "\n" e.content ++ "\n" ++ e.rule, e.tags⟩

/-- `SyncReport` (sync.py lines 35–46); `duration_ms` is wall-clock time
and is not modelled. -/
structure SyncReport where
  mode : String
  entries_scanned : Nat
  entries_added : Nat
  entries_updated : Nat
  entries_skipped : Nat
  entries_deprecated : Nat
  entries_fts_only : Nat
  errors : List String
deriving DecidableEq

/-- The dataclass defaults of `SyncReport`. -/
def SyncReport.init : SyncReport :=
  ⟨"incremental", 0, 0, 0, 0, 0, 0, []⟩

/-- `_read_events` (sync.py lines 54–76): the reader with `start_line = 0`
and `track_lines = True`. -/
def _read_events (events_path : Option (List Line)) (byte_offset : Nat) :
    List (String × Entry) × Nat × Nat :=
  load_events_latest_wins events_path 0 true byte_offset

/-- One queued embedding work item of `to_embed` (sync.py line 136). -/
structure EmbItem where
  entry_id : String
  entry : Entry
  text : String
  text_hash : String
deriving DecidableEq

/-- One iteration of the deprecated-ids loop (sync.py lines 129–132). -/
def processDeprecated (acc : VectorDB × SyncReport) (entry_id : String) :
    VectorDB × SyncReport :=
  ((acc.1.mark_deprecated entry_id).delete_fts entry_id,
   { acc.2 with entries_deprecated := acc.2.entries_deprecated + 1 })

/-- One iteration of the active-entries loop (sync.py lines 139–161):
hash check, unconditional FTS update on change, and queueing for the
embedder when one is configured. -/
def processActive (hash : String → String) (embedder : Option Embedder)
    (acc : VectorDB × SyncReport × List EmbItem) (p : String × Entry) :
    VectorDB × SyncReport × List EmbItem :=
  let embed_text := build_embedding_text p.2
  let text_hash := hash embed_text
  if !acc.1.needs_update p.1 text_hash then
    (acc.1, { acc.2.1 with entries_skipped := acc.2.1.entries_skipped + 1 }, acc.2.2)
  else
    let db := acc.1.upsert_fts p.1 (build_fts_fields p.2)
    if embedder.isNone then
      (db, { acc.2.1 with entries_fts_only := acc.2.1.entries_fts_only + 1 }, acc.2.2)
    else
      (db, acc.2.1, acc.2.2 ++ [⟨p.1, p.2, embed_text, text_hash⟩])

/-- Store one successfully embedded item (sync.py lines 178–197):
added when no SyncRecord existed for the id, updated otherwise.  The
per-item `try/except` guards serialization failures of the external
store and is outside the model. -/
def storeOne (emb : Embedder) (acc : VectorDB × SyncReport)
    (pr : EmbItem × EmbedResult) : VectorDB × SyncReport :=
  let is_new := !acc.1.has_vector pr.1.entry_id
  let db := acc.1.upsert_vector pr.1.entry_id
    ⟨pr.1.text_hash, emb.provider_id, emb.model_name, pr.2.dimensions, pr.2.vector, false⟩
  if is_new then (db, { acc.2 with entries_added := acc.2.entries_added + 1 })
  else (db, { acc.2 with entries_updated := acc.2.entries_updated + 1 })

/-- The error message recorded for a failed embedding batch
(sync.py line 172). -/
def batchErrMsg (batch_start : Nat) (batch_len : Nat) (e : String) : String :=
  "Batch embed failed (items " ++ toString batch_start ++ "-"
    ++ toString (batch_start + batch_len) ++ "): " ++ e

/-- Process one embedding batch (sync.py lines 166–198): a single provider
call for the whole batch; on failure record the error and leave every item
of the batch unsynced, on success store each zipped item. -/
def processBatch (emb : Embedder) (batch_start : Nat) (batch : List EmbItem)
    (acc : VectorDB × SyncReport) : VectorDB × SyncReport :=
  match emb.embed_documents (batch.map (fun it => it.text)) with
  | Except.error e =>
    (acc.1, { acc.2 with errors := acc.2.errors ++ [batchErrMsg batch_start batch.length e] })
  | Except.ok results => (batch.zip results).foldl (storeOne emb) acc

/-- Fuel-indexed form of the batch loop: each iteration consumes at least
one item when `batch_size ≥ 1`, so `items.length` fuel always suffices.
The fuel only bounds the iteration count; it never changes the result. -/
def batchLoopF (emb : Embedder) (batch_size : Nat) :
    Nat → Nat → List EmbItem → VectorDB × SyncReport → VectorDB × SyncReport
  | 0, _, _, acc => acc
  | fuel + 1, batch_start, items, acc =>
    if items.isEmpty || batch_size == 0 then acc
    else
      batchLoopF emb batch_size fuel (batch_start + batch_size)
        (items.drop batch_size)
        (processBatch emb batch_start (items.take batch_size) acc)

/-- The batch loop of `sync_embeddings` (sync.py line 165:
`for batch_start in range(0, len(to_embed), batch_size)`).  Python raises
`ValueError` on a zero step; `batch_size = 0` is outside the model and
returns the accumulator unchanged. -/
def batchLoop (emb : Embedder) (batch_size : Nat) (batch_start : Nat)
    (items : List EmbItem) (acc : VectorDB × SyncReport) : VectorDB × SyncReport :=
  batchLoopF emb batch_size items.length batch_start items acc

theorem batchLoopF_congr (emb : Embedder) (bs : Nat) (hbs : bs ≠ 0) :
    ∀ (n fuel fuel' start : Nat) (items : List EmbItem)
      (acc : VectorDB × SyncReport), items.length = n →
      items.length ≤ fuel → items.length ≤ fuel' →
      batchLoopF emb bs fuel start items acc =
        batchLoopF emb bs fuel' start items acc := by
  intro n
  induction n using Nat.strong_induction_on with
  | _ n ih =>
    intro fuel fuel' start items acc hn hf hf'
    cases items with
    | nil =>
      cases fuel with
      | zero =>
        cases fuel' with
        | zero => rfl
        | succ f' => simp [batchLoopF]
      | succ f =>
        cases fuel' with
        | zero => simp [batchLoopF]
        | succ f' => simp [batchLoopF]
    | cons it rest =>
      have hlen : (it :: rest).length = rest.length + 1 := List.length_cons it rest
      cases fuel with
      | zero => omega
      | succ f =>
        cases fuel' with
        | zero => omega
        | succ f' =>
          by_cases hz : bs = 0
          · exact absurd hz hbs
          · simp only [batchLoopF, List.isEmpty_cons, Bool.false_or,
              beq_iff_eq, if_neg hz]
            have hd : ((it :: rest).drop bs).length < n := by
              simp only [List.length_drop]
              omega
            exact ih _ hd f f' _ _ _ rfl (by simp [List.length_drop] at *; omega)
              (by simp [List.length_drop] at *; omega)

theorem batchLoop_nil (emb : Embedder) (bs start : Nat)
    (acc : VectorDB × SyncReport) : batchLoop emb bs start [] acc = acc := rfl

theorem batchLoop_bszero (emb : Embedder) (start : Nat) (items : List EmbItem)
    (acc : VectorDB × SyncReport) : batchLoop emb 0 start items acc = acc := by
  cases items with
  | nil => rfl
  | cons it rest => simp [batchLoop, batchLoopF]

theorem batchLoop_step (emb : Embedder) (bs start : Nat) (items : List EmbItem)
    (acc : VectorDB × SyncReport) (hbs : bs ≠ 0) (hne : items ≠ []) :
    batchLoop emb bs start items acc =
      batchLoop emb bs (start + bs) (items.drop bs)
        (processBatch emb start (items.take bs) acc) := by
  cases items with
  | nil => exact absurd rfl hne
  | cons it rest =>
    show batchLoopF emb bs (rest.length + 1) start (it :: rest) acc = _
    simp only [batchLoopF, List.isEmpty_cons, Bool.false_or, beq_iff_eq,
      if_neg hbs]
    exact batchLoopF_congr emb bs hbs ((it :: rest).drop bs).length rest.length
      (((it :: rest).drop bs).length) (start + bs) _ _ rfl
      (by simp [List.length_drop]; omega) le_rfl

/-- The byte offset `sync_embeddings` reads from (sync.py lines 103, 107). -/
def syncByteCursor (db : VectorDB) (force_full : Bool) : Nat :=
  match (if force_full then none else db.get_sync_cursor) with
  | some c => if 0 < c then c else 0
  | none => 0

/-- The scan-mode string of the report (sync.py line 104). -/
def syncMode (db : VectorDB) (force_full : Bool) : String :=
  if (if force_full then none else db.get_sync_cursor).isSome && !force_full then
    "incremental"
  else "full"

/-- The body of `sync_embeddings` past the early-return check
(sync.py lines 117–198): split deprecated from active in scan order,
process the deprecated ids, hash-compare the active entries, and run the
embedding batches when a provider is configured (with none, `to_embed`
stays empty and the loop body never runs, as in the source). -/
def syncCore (hash : String → String) (embedder : Option Embedder)
    (batch_size : Nat) (db : VectorDB) (report0 : SyncReport)
    (entries : List (String × Entry)) : SyncReport × VectorDB :=
  let deprecated_ids := (entries.filter (fun p => p.2.deprecated)).map (fun p => p.1)
  let active_entries := entries.filter (fun p => !p.2.deprecated)
  let acc1 := deprecated_ids.foldl processDeprecated (db, report0)
  let acc2 := active_entries.foldl (processActive hash embedder) (acc1.1, acc1.2, [])
  match embedder with
  | none => (acc2.2.1, acc2.1)
  | some emb =>
    let acc3 := batchLoop emb batch_size 0 acc2.2.2 (acc2.1, acc2.2.1)
    (acc3.2, acc3.1)

/-- `sync_embeddings` (sync.py lines 79–212): mode selection from the
stored cursor, incremental read, early return on an empty scan, the core
phases, and the cursor advance guarded by a clean error list (lines
200–209).  `hash` abstracts `_compute_text_hash` (a deterministic
fingerprint computed by `hashlib`). -/
def sync_embeddings (hash : String → String) (events_path : Option (List Line))
    (vectordb : VectorDB) (embedder : Option Embedder) (force_full : Bool)
    (batch_size : Nat) : SyncReport × VectorDB :=
  let scan := _read_events events_path (syncByteCursor vectordb force_full)
  let report0 := { SyncReport.init with
    mode := syncMode vectordb force_full, entries_scanned := scan.1.length }
  if scan.1.isEmpty then (report0, vectordb)
  else
    let core := syncCore hash embedder batch_size vectordb report0 scan.1
    (core.1,
     if core.1.errors.isEmpty then core.2.set_sync_cursor scan.2.2 else core.2)

/-- The end-of-file offset the reader reports for a file (its size; `0`
for a missing file). -/
def end_offset_of (events_path : Option (List Line)) : Nat :=
  match events_path with
  | none => 0
  | some lines => fileSize lines

/-- Result of schema validation (spec §7 *ValidationFailure*: a structured
rejection listing what is missing). -/
structure ValidationResult where
  valid : Bool
  errors : List String
deriving DecidableEq

/-- Modelled from the spec: schema validation of a candidate entry
(`auto_verify.validate_schema` is not part of src/).  Spec §3/§7: a record
is unusable without an id, and an entry carries a short title; a candidate
missing either is a structured rejection, never written to the Log. -/
def validate_schema (e : Entry) : ValidationResult :=
  if e.id = "" then ⟨false, ["missing required field: id"]⟩
  else if e.title = "" then ⟨false, ["missing required field: title"]⟩
  else ⟨true, []⟩

/-- Result of a duplicate check (spec §4.3): the verdict and the matches
at or above the threshold with their scores. -/
structure DedupResult where
  is_duplicate : Bool
  similar : List (String × ℚ)
deriving DecidableEq

/-- Modelled from the spec: the canonical comparison text of a candidate
(spec §4.3: title + rule + key content, order-stable);
`text_builder.build_dedup_text` is not part of src/. -/
def build_dedup_text (e : Entry) : String :=
  e.title ++ " " ++ e.rule ++ " " ++ String.intercalate " " e.content

/-- Insert into a score-descending list (spec §4.3: matches are reported
sorted by descending score). -/
def insertDesc (x : String × ℚ) : List (String × ℚ) → List (String × ℚ)
  | [] => [x]
  | y :: ys => if y.2 ≤ x.2 then x :: y :: ys else y :: insertDesc x ys

/-- Modelled from the spec: `check_duplicates` (spec §4.3;
`auto_verify.check_duplicates` is not part of src/): compare the
candidate's canonical text against every entry of the supplied state with
a similarity score in [0,1]; any comparison at or above the threshold
makes it a duplicate, matches sorted by descending score.  The similarity
function itself is approximate text similarity and is threaded through as
the parameter `sim`. -/
def check_duplicates (sim : String → String → ℚ) (threshold : ℚ)
    (candidate : Entry) (preloaded : List (String × Entry)) : DedupResult :=
  let ctext := build_dedup_text candidate
  let hits := preloaded.filterMap (fun p =>
    let s := sim ctext (build_dedup_text p.2)
    if threshold ≤ s then some (p.1, s) else none)
  ⟨!hits.isEmpty, hits.foldr insertDesc []⟩

/-- `BatchValidateResult` (scanner.py lines 108–115); `duration_ms` is not
modelled. -/
structure BatchValidateResult where
  valid : List Entry
  duplicates : List (Entry × DedupResult)
  invalid : List (Entry × ValidationResult)
  total : Nat
deriving DecidableEq

/-- One iteration of the `batch_validate` loop (scanner.py lines 490–522):
schema validation, dedup against the durable log state, then cross-dedup
against the entries already accepted earlier in this batch (only when at
least one was).  An accepted entry with a non-empty id joins
`validated_so_far`. -/
def processCandidate (sim : String → String → ℚ) (threshold : ℚ)
    (existing : List (String × Entry))
    (acc : BatchValidateResult × List (String × Entry)) (entry : Entry) :
    BatchValidateResult × List (String × Entry) :=
  let validation := validate_schema entry
  if !validation.valid then
    ({ acc.1 with invalid := acc.1.invalid ++ [(entry, validation)] }, acc.2)
  else
    let dedup := check_duplicates sim threshold entry existing
    if dedup.is_duplicate then
      ({ acc.1 with duplicates := acc.1.duplicates ++ [(entry, dedup)] }, acc.2)
    else
      let cross := check_duplicates sim threshold entry acc.2
      if !acc.2.isEmpty && cross.is_duplicate then
        ({ acc.1 with duplicates := acc.1.duplicates ++ [(entry, cross)] }, acc.2)
      else
        ({ acc.1 with valid := acc.1.valid ++ [entry] },
         if entry.id ≠ "" then aupsert entry.id entry acc.2 else acc.2)

/-- `batch_validate` (scanner.py lines 464–525): pre-load the log state
once, then validate and deduplicate the candidates in input order.
`threshold` is the configured dedup threshold (default 0.85). -/
def batch_validate (sim : String → String → ℚ) (threshold : ℚ)
    (entries : List Entry) (events_path : Option (List Line)) :
    BatchValidateResult :=
  let existing := (load_events_latest_wins events_path 0 false 0).1
  (entries.foldl (processCandidate sim threshold existing)
    (⟨[], [], [], entries.length⟩, [])).1

/-- Compaction statistics (spec §4.4; `lib/compaction.py` is not part of
src/).  `waste` is the source's waste ratio
`total_lines / max(active_entries, 1)`. -/
structure CompactionStats where
  total_lines : Nat
  unique_entries : Nat
  active_entries : Nat
  deprecated_entries : Nat
  superseded_lines : Nat
  waste : ℚ
  suggest_compact : Bool
deriving DecidableEq

/-- Modelled from the spec: `get_compaction_stats` (spec §4.4;
`lib/compaction.py` is not part of src/): resolve latest-wins, count the
active and deprecated resolved entries, and compute the waste ratio. -/
def get_compaction_stats (events_path : Option (List Line)) (threshold : ℚ) :
    CompactionStats :=
  let scan := load_events_latest_wins events_path 0 true 0
  let total := scan.2.1
  let active := (scan.1.filter (fun p => !p.2.deprecated)).length
  let deprecatedN := (scan.1.filter (fun p => p.2.deprecated)).length
  let waste : ℚ := (total : ℚ) / ((max active 1 : Nat) : ℚ)
  ⟨total, scan.1.length, active, deprecatedN, total - scan.1.length, waste,
   decide (threshold < waste)⟩

/-- The quarter label of a `created_at` timestamp string, e.g.
`"2026-01-07..." ↦ "2026-Q1"` (spec §3 ArchiveBucket). -/
def quarter_of (created_at : String) : String :=
  let year := created_at.take 4
  let month := (created_at.drop 5).take 2
  let q :=
    if month ≤ "03" then "Q1"
    else if month ≤ "06" then "Q2"
    else if month ≤ "09" then "Q3"
    else "Q4"
  year ++ "-" ++ q

/-- The quarter archive buckets: quarter label to the lines appended to
that bucket's file. -/
structure ArchiveStore where
  buckets : List (String × List Line)
deriving DecidableEq

/-- Append a line to one quarter bucket (created on demand, spec §4.4). -/
def ArchiveStore.append (a : ArchiveStore) (quarter : String) (l : Line) :
    ArchiveStore :=
  match alookup quarter a.buckets with
  | none => ⟨a.buckets ++ [(quarter, [l])]⟩
  | some ls => ⟨aupsert quarter (ls ++ [l]) a.buckets⟩

/-- Whether the line at index `i` is kept by compaction: it is the latest
version of an id whose latest version is not deprecated (spec §4.4). -/
def keptLine (st : List (String × Entry)) (i : Nat) : Bool :=
  st.any (fun p => !p.2.deprecated && p.2.meta_line == some i)

/-- Modelled from the spec: `compact` (spec §4.4; `lib/compaction.py` is
not part of src/): resolve latest-wins with line tracking, keep the latest
version of every active id in original order, and append every removable
record line to the archive bucket of its own `created_at` quarter. -/
def compact (events_path : Option (List Line)) (archive : ArchiveStore) :
    Option (List Line) × ArchiveStore :=
  match events_path with
  | none => (none, archive)
  | some lines =>
    let st := (load_events_latest_wins (some lines) 0 true 0).1
    let kept := (List.range lines.length).filterMap (fun i =>
      if keptLine st i then lines.get? i else none)
    let removable := (List.range lines.length).filterMap (fun i =>
      match lines.get? i with
      | some l =>
        match l.data with
        | LineData.record e => if keptLine st i then none else some (l, e.created_at)
        | _ => none
      | none => none)
    (some kept,
     removable.foldl (fun a pr => a.append (quarter_of pr.2) pr.1) archive)

/-- The compaction entry point (compact_cli.py `main`, lines 98–107): read
the stats and, when `waste_ratio ≤ 1.0`, exit before `compact` is ever
called — the declared no-op; otherwise run `compact`. -/
def run_compaction (events_path : Option (List Line)) (archive : ArchiveStore)
    (threshold : ℚ) : Option (List Line) × ArchiveStore :=
  if (get_compaction_stats events_path threshold).waste ≤ 1 then (events_path, archive)
  else compact events_path archive

/-! ## Association-list lemmas -/

theorem alookup_aupsert_self {α : Type} (k : String) (v : α)
    (l : List (String × α)) : alookup k (aupsert k v l) = some v := by
  induction l with
  | nil => simp [aupsert, alookup]
  | cons p rest ih =>
    by_cases hp : p.1 = k
    · simp [aupsert, alookup, hp]
    · by_cases hr : rest.any (fun q => q.1 = k)
      · have := ih
        simp [aupsert, hp, hr, alookup] at this ⊢
        exact this
      · have := ih
        simp [aupsert, hp, hr, alookup] at this ⊢
        exact this

theorem alookup_map_write_ne {α : Type} (k k' : String) (v : α)
    (l : List (String × α)) (h : k' ≠ k) :
    alookup k' (l.map (fun p => if p.1 = k then (k, v) else p)) = alookup k' l := by
  induction l with
  | nil => simp [alookup]
  | cons p rest ih =>
    by_cases hp : p.1 = k
    · simp only [List.map_cons, if_pos hp, alookup]
      rw [if_neg (fun hh => h hh.symm), if_neg (by rw [hp]; exact fun hh => h hh.symm)]
      exact ih
    · simp only [List.map_cons, if_neg hp, alookup]
      by_cases hpk : p.1 = k'
      · rw [if_pos hpk, if_pos hpk]
      · rw [if_neg hpk, if_neg hpk]; exact ih

theorem alookup_append_single_ne {α : Type} (k k' : String) (v : α)
    (l : List (String × α)) (h : k' ≠ k) :
    alookup k' (l ++ [(k, v)]) = alookup k' l := by
  induction l with
  | nil =>
    simp [alookup]
    exact fun hh => h hh.symm
  | cons p rest ih =>
    simp only [List.cons_append, alookup]
    by_cases hpk : p.1 = k'
    · rw [if_pos hpk, if_pos hpk]
    · rw [if_neg hpk, if_neg hpk]; exact ih

theorem alookup_aupsert_ne {α : Type} (k k' : String) (v : α)
    (l : List (String × α)) (h : k' ≠ k) :
    alookup k' (aupsert k v l) = alookup k' l := by
  unfold aupsert
  split
  · exact alookup_map_write_ne k k' v l h
  · exact alookup_append_single_ne k k' v l h

theorem aupsert_ne_nil {α : Type} (k : String) (v : α)
    (l : List (String × α)) : aupsert k v l ≠ [] := by
  unfold aupsert
  split
  · cases l with
    | nil => simp_all
    | cons p rest => simp
  · simp

theorem alookup_mem {α : Type} (k : String) (v : α) (l : List (String × α))
    (h : alookup k l = some v) : (k, v) ∈ l := by
  induction l with
  | nil => simp [alookup] at h
  | cons p rest ih =>
    rw [alookup] at h
    by_cases hp : p.1 = k
    · rw [if_pos hp] at h
      have hpv : p = (k, v) := by
        obtain ⟨a, b⟩ := p
        simp only at hp
        simp only [Option.some_inj] at h
        simp [hp, h]
      rw [List.mem_cons]
      exact Or.inl hpv.symm
    · rw [if_neg hp] at h
      exact List.mem_cons_of_mem _ (ih h)

/-! ## Scan lemmas -/

theorem scanLines_append (tr : Bool) (sl : Nat) (xs ys : List Line)
    (i : Nat) (acc : List (String × Entry)) :
    scanLines tr sl (xs ++ ys) i acc =
      scanLines tr sl ys (i + xs.length) (scanLines tr sl xs i acc) := by
  induction xs generalizing i acc with
  | nil => simp [scanLines]
  | cons x xs ih =>
    simp only [List.cons_append, scanLines, List.length_cons]
    rw [show i + (xs.length + 1) = (i + 1) + xs.length by omega]
    exact ih (i + 1) (procLine tr sl i acc x)

theorem scanLines_no_id (tr : Bool) (ls : List Line) (id : String)
    (hnone : ∀ l' ∈ ls, ∀ e, l'.data = LineData.record e → e.id ≠ id) :
    ∀ (i : Nat) (acc : List (String × Entry)),
      alookup id (scanLines tr 0 ls i acc) = alookup id acc := by
  induction ls with
  | nil => intro i acc; simp [scanLines]
  | cons l rest ih =>
    intro i acc
    have hrest : ∀ l' ∈ rest, ∀ e, l'.data = LineData.record e → e.id ≠ id :=
      fun l' hl' => hnone l' (List.mem_cons_of_mem _ hl')
    have hl := hnone l (List.mem_cons_self _ _)
    simp only [scanLines]
    rw [ih hrest]
    unfold procLine
    cases hd : l.data with
    | blank => rfl
    | malformed => rfl
    | record e =>
      have hne : e.id ≠ id := hl e hd
      dsimp only
      by_cases hide : e.id = ""
      · simp [hide]
      · rw [if_neg (Nat.not_lt_zero i), if_pos hide]
        exact alookup_aupsert_ne e.id id _ acc (Ne.symm hne)

/-- The entry at line index `i` of the file parses to record `e`. -/
def recordAt (lines : List Line) (i : Nat) (e : Entry) : Prop :=
  ∃ b, lines[i]? = some ⟨LineData.record e, b⟩

/-- **C2.** For every log file scanned from the start
(`load_events_latest_wins` with `byte_offset = 0`) and every id appearing
on several parseable lines (`i < j`, with `j` the highest such index), the
returned state maps the id to the entry parsed from line `j` —
last-write-wins, regardless of any timestamp or other field content of the
entries. -/
theorem load_events_last_write_wins
    (lines : List Line) (id : String) (i j : Nat) (ei ej : Entry)
    (hid : id ≠ "") (hij : i < j)
    (hi : recordAt lines i ei) (hei : ei.id = id)
    (hj : recordAt lines j ej) (hej : ej.id = id)
    (hlast : ∀ k e', j < k → recordAt lines k e' → e'.id ≠ id) :
    alookup id (load_events_latest_wins (some lines) 0 false 0).1 = some ej := by
  obtain ⟨bj, hbj⟩ := hj
  obtain ⟨hjlen, hgetj⟩ := List.getElem?_eq_some_iff.mp hbj
  have hload : (load_events_latest_wins (some lines) 0 false 0).1 =
      scanLines false 0 lines 0 [] := by
    simp [load_events_latest_wins]
  have hsplit : lines = lines.take j ++ lines.drop j :=
    (List.take_append_drop j lines).symm
  have hdrop : lines.drop j = ⟨LineData.record ej, bj⟩ :: lines.drop (j + 1) := by
    rw [List.drop_eq_getElem_cons hjlen, hgetj]
  have hlen_take : (lines.take j).length = j := by
    simp [List.length_take]
    omega
  rw [hload]
  conv_lhs => rw [hsplit, hdrop]
  rw [scanLines_append]
  simp only [scanLines, hlen_take]
  have hproc : procLine false 0 (0 + j)
      (scanLines false 0 (lines.take j) 0 []) ⟨LineData.record ej, bj⟩ =
      aupsert id ej (scanLines false 0 (lines.take j) 0 []) := by
    simp only [procLine]
    rw [if_neg (Nat.not_lt_zero _), if_pos (show ej.id ≠ "" by rw [hej]; exact hid)]
    simp only [Bool.false_eq_true, if_false, hej]
  rw [hproc]
  have hnone : ∀ l' ∈ lines.drop (j + 1), ∀ e,
      l'.data = LineData.record e → e.id ≠ id := by
    intro l' hl' e hrec
    obtain ⟨m, hmlt, hml⟩ := List.mem_iff_getElem.mp hl'
    have hlt : j + 1 + m < lines.length := by
      have := hmlt
      simp only [List.length_drop] at this
      omega
    have hgm : lines[j + 1 + m]? = some l' := by
      rw [← List.getElem?_drop]
      exact List.getElem?_eq_some_iff.mpr ⟨hmlt, hml⟩
    refine hlast (j + 1 + m) e (by omega) ⟨l'.bytes, ?_⟩
    rw [hgm]
    cases l'
    simp only at hrec
    rw [hrec]
  rw [scanLines_no_id false _ id hnone]
  exact alookup_aupsert_self id ej _

/-- Version `n` of the id `"x"` used by the last-write-wins witness. -/
def fxC2_entry (n : Nat) : Entry :=
  ⟨"x", "title v" ++ toString n, [], "", [], "", false, none⟩

/-- A three-line log holding versions v1, v2, v3 of the id `"x"`. -/
def fxC2_lines : List Line :=
  [⟨LineData.record (fxC2_entry 1), 20⟩,
   ⟨LineData.record (fxC2_entry 2), 20⟩,
   ⟨LineData.record (fxC2_entry 3), 20⟩]

/-- Witness for C2: on a concrete three-version log the resolved state
maps `"x"` to the version on the highest line. -/
theorem load_events_last_write_wins_witness :
    alookup "x" (load_events_latest_wins (some fxC2_lines) 0 false 0).1 =
      some (fxC2_entry 3) := by
  apply load_events_last_write_wins fxC2_lines "x" 0 2 (fxC2_entry 1) (fxC2_entry 3)
    (by decide) (by decide) ⟨20, rfl⟩ rfl ⟨20, rfl⟩ rfl
  intro k e' hk hrec
  obtain ⟨b, hb⟩ := hrec
  have hklen := (List.getElem?_eq_some_iff.mp hb).1
  simp only [fxC2_lines, List.length_cons, List.length_nil] at hklen
  exact absurd hklen (by omega)

/-- Fixture entry for the byte-offset total-lines evaluation. -/
def fxC4_entry (s : String) : Entry := ⟨s, "T", [], "", [], "", false, none⟩

/-- A three-line log, 20 bytes of text per line (21 with the newline). -/
def fxC4_lines : List Line :=
  [⟨LineData.record (fxC4_entry "a"), 20⟩,
   ⟨LineData.record (fxC4_entry "b"), 20⟩,
   ⟨LineData.record (fxC4_entry "c"), 20⟩]

/-- **C4.** Evaluation at the failing input: reading an existing 3-line
log with `byte_offset = 21` (the start of the second line) does seek there
and scan to end-of-file — the state holds exactly the two entries past the
offset and the end offset is the file size — but `total_lines` comes back
as `3`, the full file count, not the `0` that the spec and the
repository's own test `test_byte_offset_total_lines_zero` demand. -/
theorem byte_offset_total_lines_bug :
    (load_events_latest_wins (some fxC4_lines) 0 false 21).2.1 = 3 ∧
    (load_events_latest_wins (some fxC4_lines) 0 false 21).1 =
      [("b", fxC4_entry "b"), ("c", fxC4_entry "c")] ∧
    (load_events_latest_wins (some fxC4_lines) 0 false 21).2.2 = 63 := by
  decide

/-- Fixture entry for the OS-failure counterexample. -/
def fxC5_entry : Entry := ⟨"a", "T", [], "", [], "", false, none⟩

/-- A log whose first line is a record; the injected fault fires after the
OS has delivered that one line. -/
def fxC5_lines : List Line := [⟨LineData.record fxC5_entry, 30⟩, ⟨LineData.blank, 0⟩]

/-- **C5 counterexample.** An `OSError` raised mid-read (after one line of
an existing file was delivered) does not produce the empty result: the
reader keeps the entries accumulated before the failure. -/
theorem osfail_partial_counterexample :
    load_events_latest_wins_osfail (some fxC5_lines) 0 false 1 ≠ ([], 0, 0) ∧
    (load_events_latest_wins_osfail (some fxC5_lines) 0 false 1).1 =
      [("a", fxC5_entry)] := by
  decide

/-- **C5 (amended).** The Log Reader never raises.  A missing file yields
the empty state with all counters `0`, and so does an OS failure at `open`
(the case the repository's error-handling test exercises); an OS failure
after `k` lines were read fails soft to exactly the state and line count a
full read of the `k`-line prefix would produce, with `end_byte_offset`
left `0`. -/
theorem reader_failsoft (events_path : Option (List Line)) (sl : Nat)
    (tr : Bool) (k : Nat) :
    (events_path = none →
      load_events_latest_wins_osfail events_path sl tr k = ([], 0, 0)) ∧
    (k = 0 → load_events_latest_wins_osfail events_path sl tr k = ([], 0, 0)) ∧
    (∀ lines, events_path = some lines → k < lines.length →
      load_events_latest_wins_osfail events_path sl tr k =
        ((load_events_latest_wins (some (lines.take k)) sl tr 0).1, k, 0)) := by
  refine ⟨?_, ?_, ?_⟩
  · intro h; subst h; rfl
  · intro h; subst h
    cases events_path with
    | none => rfl
    | some lines =>
      cases lines with
      | nil =>
        simp [load_events_latest_wins_osfail, load_events_latest_wins,
          scanLines, fileSize]
      | cons l rest =>
        simp [load_events_latest_wins_osfail, scanLines]
  · intro lines h hk
    subst h
    simp [load_events_latest_wins_osfail, load_events_latest_wins, hk]

/-- Witness for C5: the missing-file clause at a concrete input. -/
theorem reader_failsoft_witness :
    load_events_latest_wins_osfail none 0 false 0 = ([], 0, 0) :=
  (reader_failsoft none 0 false 0).1 rfl

/-- **C9.** If the log's waste ratio (total lines over
`max(active entries, 1)`) is at most `1.0`, running compaction is a no-op:
the entry point exits before `compact` is called, so the log file and
every quarter archive bucket are left untouched. -/
theorem compaction_noop (events_path : Option (List Line))
    (archive : ArchiveStore) (threshold : ℚ)
    (h : (get_compaction_stats events_path threshold).waste ≤ 1) :
    run_compaction events_path archive threshold = (events_path, archive) := by
  rw [run_compaction, if_pos h]

/-- Witness for C9: a missing log has waste ratio `0 ≤ 1` and compaction
leaves the file and the archive untouched. -/
theorem compaction_noop_witness :
    run_compaction none ⟨[]⟩ 2 = (none, ⟨[]⟩) :=
  compaction_noop none ⟨[]⟩ 2
    (by simp [get_compaction_stats, load_events_latest_wins])

/-- **C10.** If the scanned range of a `sync_embeddings` run resolves to
zero entries, the run returns early: the report carries zero counts and no
errors, and the secondary store — cursor included — is returned exactly as
it was, even though the run recorded zero errors. -/
theorem empty_scan_no_write (hash : String → String)
    (events_path : Option (List Line)) (db : VectorDB)
    (embedder : Option Embedder) (force_full : Bool) (batch_size : Nat)
    (h : (_read_events events_path (syncByteCursor db force_full)).1 = []) :
    sync_embeddings hash events_path db embedder force_full batch_size =
      ({ SyncReport.init with
          mode := syncMode db force_full, entries_scanned := 0 }, db) := by
  simp [sync_embeddings, h]

/-- Witness for C10: a missing log file scans to zero entries and the
store comes back untouched. -/
theorem empty_scan_no_write_witness :
    sync_embeddings (fun s => s) none ⟨some 7, [], []⟩ none false 20 =
      ({ SyncReport.init with
          mode := syncMode ⟨some 7, [], []⟩ false, entries_scanned := 0 },
       ⟨some 7, [], []⟩) :=
  empty_scan_no_write (fun s => s) none ⟨some 7, [], []⟩ none false 20 rfl

/-! ## Cursor preservation through the sync phases -/

theorem processDeprecated_cursor (acc : VectorDB × SyncReport) (id : String) :
    ((processDeprecated acc id).1).sync_cursor = acc.1.sync_cursor := rfl

theorem foldlDeprecated_cursor (ids : List String) :
    ∀ (acc : VectorDB × SyncReport),
      ((ids.foldl processDeprecated acc).1).sync_cursor = acc.1.sync_cursor := by
  induction ids with
  | nil => intro acc; rfl
  | cons i rest ih =>
    intro acc
    rw [List.foldl_cons, ih, processDeprecated_cursor]

theorem processActive_cursor (hash : String → String) (emb : Option Embedder)
    (acc : VectorDB × SyncReport × List EmbItem) (p : String × Entry) :
    ((processActive hash emb acc p).1).sync_cursor = acc.1.sync_cursor := by
  unfold processActive
  dsimp only
  split
  · rfl
  · split <;> rfl

theorem foldlActive_cursor (hash : String → String) (emb : Option Embedder)
    (ps : List (String × Entry)) :
    ∀ (acc : VectorDB × SyncReport × List EmbItem),
      ((ps.foldl (processActive hash emb) acc).1).sync_cursor =
        acc.1.sync_cursor := by
  induction ps with
  | nil => intro acc; rfl
  | cons p rest ih =>
    intro acc
    rw [List.foldl_cons, ih, processActive_cursor]

theorem storeOne_cursor (emb : Embedder) (acc : VectorDB × SyncReport)
    (pr : EmbItem × EmbedResult) :
    ((storeOne emb acc pr).1).sync_cursor = acc.1.sync_cursor := by
  unfold storeOne
  dsimp only
  split <;> rfl

theorem foldlStore_cursor (emb : Embedder) (prs : List (EmbItem × EmbedResult)) :
    ∀ (acc : VectorDB × SyncReport),
      ((prs.foldl (storeOne emb) acc).1).sync_cursor = acc.1.sync_cursor := by
  induction prs with
  | nil => intro acc; rfl
  | cons pr rest ih =>
    intro acc
    rw [List.foldl_cons, ih, storeOne_cursor]

theorem processBatch_cursor (emb : Embedder) (start : Nat)
    (batch : List EmbItem) (acc : VectorDB × SyncReport) :
    ((processBatch emb start batch acc).1).sync_cursor = acc.1.sync_cursor := by
  unfold processBatch
  cases emb.embed_documents (batch.map (fun it => it.text)) with
  | error e => rfl
  | ok results => exact foldlStore_cursor emb _ acc

theorem batchLoop_cursor (emb : Embedder) (bs : Nat) :
    ∀ (n : Nat) (items : List EmbItem) (start : Nat)
      (acc : VectorDB × SyncReport), items.length = n →
      ((batchLoop emb bs start items acc).1).sync_cursor =
        acc.1.sync_cursor := by
  intro n
  induction n using Nat.strong_induction_on with
  | _ n ih =>
    intro items start acc hn
    by_cases hne : items = []
    · subst hne; rfl
    · by_cases hbs : bs = 0
      · subst hbs; rw [batchLoop_bszero]
      · rw [batchLoop_step emb bs start items acc hbs hne]
        have hd : (items.drop bs).length < n := by
          simp only [List.length_drop]
          have := List.length_pos.mpr hne
          omega
        rw [ih _ hd (items.drop bs) _ _ rfl, processBatch_cursor]

theorem syncCore_cursor (hash : String → String) (emb : Option Embedder)
    (bs : Nat) (db : VectorDB) (r0 : SyncReport)
    (entries : List (String × Entry)) :
    ((syncCore hash emb bs db r0 entries).2).sync_cursor = db.sync_cursor := by
  unfold syncCore
  cases emb with
  | none =>
    dsimp only
    rw [foldlActive_cursor, foldlDeprecated_cursor]
  | some e =>
    dsimp only
    rw [batchLoop_cursor e bs _ _ _ _ rfl, foldlActive_cursor,
      foldlDeprecated_cursor]

theorem read_events_end (events_path : Option (List Line)) (off : Nat) :
    (_read_events events_path off).2.2 = end_offset_of events_path := by
  cases events_path with
  | none => rfl
  | some lines =>
    unfold _read_events load_events_latest_wins end_offset_of
    dsimp only
    split <;> rfl

/-- **C1.** Retry safety of the sync cursor: if a `sync_embeddings` run
records at least one error, the cursor stored in the secondary store after
the run equals its value before the run; and whenever the cursor does
move, the run recorded zero errors and the cursor now holds the scan's
end-of-file offset. -/
theorem sync_cursor_retry_safety (hash : String → String)
    (events_path : Option (List Line)) (db : VectorDB)
    (embedder : Option Embedder) (force_full : Bool) (batch_size : Nat) :
    ((sync_embeddings hash events_path db embedder force_full batch_size).1.errors ≠ [] →
      (sync_embeddings hash events_path db embedder force_full batch_size).2.sync_cursor =
        db.sync_cursor) ∧
    ((sync_embeddings hash events_path db embedder force_full batch_size).2.sync_cursor =
        db.sync_cursor ∨
      ((sync_embeddings hash events_path db embedder force_full batch_size).1.errors = [] ∧
       (sync_embeddings hash events_path db embedder force_full batch_size).2.sync_cursor =
         some (end_offset_of events_path))) := by
  unfold sync_embeddings
  dsimp only
  split
  · exact ⟨fun _ => rfl, Or.inl rfl⟩
  · by_cases he : (syncCore hash embedder batch_size db
        { SyncReport.init with
            mode := syncMode db force_full,
            entries_scanned :=
              (_read_events events_path (syncByteCursor db force_full)).1.length }
        (_read_events events_path (syncByteCursor db force_full)).1).1.errors = []
    · constructor
      · intro h
        exact absurd he h
      · refine Or.inr ⟨he, ?_⟩
        rw [if_pos (List.isEmpty_iff.mpr he)]
        show some (_read_events events_path (syncByteCursor db force_full)).2.2 = _
        rw [read_events_end]
    · have hne : (syncCore hash embedder batch_size db
          { SyncReport.init with
              mode := syncMode db force_full,
              entries_scanned :=
                (_read_events events_path (syncByteCursor db force_full)).1.length }
          (_read_events events_path (syncByteCursor db force_full)).1).1.errors.isEmpty =
          false := by
        rw [List.isEmpty_eq_false_iff_exists_mem]
        rcases hl : (syncCore hash embedder batch_size db _ _).1.errors with _ | ⟨x, xs⟩
        · exact absurd hl he
        · exact ⟨x, List.mem_cons_self x xs⟩
      rw [if_neg (by rw [hne]; exact Bool.false_ne_true)]
      constructor
      · intro _
        exact syncCore_cursor hash embedder batch_size db _ _
      · exact Or.inl (syncCore_cursor hash embedder batch_size db _ _)

/-- Fixture entry for the failing-batch run. -/
def fxC1_entry : Entry := ⟨"a", "T", [], "", [], "", false, none⟩

/-- A one-record log for the failing-batch run. -/
def fxC1_lines : List Line := [⟨LineData.record fxC1_entry, 20⟩]

/-- An embedding provider whose batch call always fails. -/
def fxFailEmb : Embedder := ⟨"prov", "mod", fun _ => Except.error "boom"⟩

/-- The empty secondary store. -/
def fxDB0 : VectorDB := ⟨none, [], []⟩

/-- Witness for C1: a concrete run whose only batch fails records an error
and leaves the cursor exactly where it was. -/
theorem sync_cursor_retry_safety_witness :
    (sync_embeddings (fun s => s) (some fxC1_lines) fxDB0 (some fxFailEmb)
      false 20).1.errors ≠ [] ∧
    (sync_embeddings (fun s => s) (some fxC1_lines) fxDB0 (some fxFailEmb)
      false 20).2.sync_cursor = fxDB0.sync_cursor :=
  ⟨by decide,
   (sync_cursor_retry_safety (fun s => s) (some fxC1_lines) fxDB0
      (some fxFailEmb) false 20).1 (by decide)⟩

/-! ## Empty-scan characterisation and the second-run behaviour -/

theorem dropBytes_fileSize : ∀ ls : List Line, dropBytes (fileSize ls) ls = [] := by
  intro ls
  induction ls with
  | nil => rfl
  | cons l rest ih =>
    have hk : fileSize (l :: rest) = l.bytes + 1 + fileSize rest := by
      simp [fileSize]
    rw [hk, dropBytes]
    rw [if_neg (by omega : ¬ l.bytes + 1 + fileSize rest = 0)]
    rw [if_pos (by omega : l.bytes + 1 ≤ l.bytes + 1 + fileSize rest)]
    rw [show l.bytes + 1 + fileSize rest - (l.bytes + 1) = fileSize rest by omega]
    exact ih

theorem fileSize_eq_zero (ls : List Line) (h : fileSize ls = 0) : ls = [] := by
  cases ls with
  | nil => rfl
  | cons l rest =>
    exfalso
    simp [fileSize] at h

theorem dropBytes_mem : ∀ (k : Nat) (ls : List Line) (l' : Line),
    l' ∈ dropBytes k ls → l' ∈ ls ∨ l'.data = LineData.malformed := by
  intro k ls
  induction ls generalizing k with
  | nil => intro l' h; rw [dropBytes] at h; exact absurd h (List.not_mem_nil l')
  | cons l rest ih =>
    intro l' h
    rw [dropBytes] at h
    by_cases hk : k = 0
    · rw [if_pos hk] at h
      exact Or.inl h
    · rw [if_neg hk] at h
      by_cases hle : l.bytes + 1 ≤ k
      · rw [if_pos hle] at h
        rcases ih _ _ h with hm | hd
        · exact Or.inl (List.mem_cons_of_mem _ hm)
        · exact Or.inr hd
      · rw [if_neg hle] at h
        rcases List.mem_cons.mp h with rfl | hm
        · exact Or.inr rfl
        · exact Or.inl (List.mem_cons_of_mem _ hm)

theorem scanSeek_no_contrib (ls : List Line)
    (h : ∀ l ∈ ls, ∀ e, l.data = LineData.record e → e.id = "") :
    ∀ acc, scanSeek ls acc = acc := by
  induction ls with
  | nil => intro acc; rfl
  | cons l rest ih =>
    intro acc
    have hrest := fun l' hl' => h l' (List.mem_cons_of_mem _ hl')
    have hl := h l (List.mem_cons_self _ _)
    unfold scanSeek
    cases hd : l.data with
    | blank => exact ih hrest acc
    | malformed => exact ih hrest acc
    | record e =>
      dsimp only
      rw [if_neg (fun hcon => hcon (hl e hd))]
      exact ih hrest acc

theorem scanLines_nil_of (tr : Bool) : ∀ (ls : List Line) (i : Nat)
    (acc : List (String × Entry)), scanLines tr 0 ls i acc = [] →
    acc = [] ∧ ∀ l ∈ ls, ∀ e, l.data = LineData.record e → e.id = "" := by
  intro ls
  induction ls with
  | nil =>
    intro i acc h
    exact ⟨h, by intro l hl; exact absurd hl (List.not_mem_nil l)⟩
  | cons l rest ih =>
    intro i acc h
    rw [scanLines] at h
    obtain ⟨hacc', hrest⟩ := ih (i + 1) _ h
    have hmain : acc = [] ∧ ∀ e, l.data = LineData.record e → e.id = "" := by
      revert hacc'
      unfold procLine
      cases hd : l.data with
      | blank => exact fun hacc' => ⟨hacc', by intro e he; cases he⟩
      | malformed => exact fun hacc' => ⟨hacc', by intro e he; cases he⟩
      | record e =>
        dsimp only
        rw [if_neg (Nat.not_lt_zero i)]
        by_cases hide : e.id = ""
        · rw [if_neg (fun hcon => hcon hide)]
          intro hacc'
          refine ⟨hacc', ?_⟩
          intro e' he'
          cases he'
          exact hide
        · rw [if_pos hide]
          intro hacc'
          exact absurd hacc' (aupsert_ne_nil _ _ _)
    refine ⟨hmain.1, ?_⟩
    intro l' hl' e he
    rcases List.mem_cons.mp hl' with rfl | hm
    · exact hmain.2 e he
    · exact hrest l' hm e he

/-- If a full standard-path scan of the file resolves to nothing, then a
read from any byte offset also resolves to nothing (every line is blank,
malformed or id-less, and a partial line is unparseable). -/
theorem read_scan_empty_any_cursor (lines : List Line)
    (h : scanLines true 0 lines 0 [] = []) (c : Nat) :
    (_read_events (some lines) c).1 = [] := by
  unfold _read_events load_events_latest_wins
  dsimp only
  split
  · apply scanSeek_no_contrib
    intro l hl e hrec
    rcases dropBytes_mem c lines l hl with hmem | hmal
    · exact (scanLines_nil_of true lines 0 [] h).2 l hmem e hrec
    · rw [hmal] at hrec
      cases hrec
  · exact h

/-- A run whose scanned range resolves to zero entries returns the
zero-count report and the store untouched (sync.py lines 113–115). -/
theorem sync_run_empty (hash : String → String)
    (events_path : Option (List Line)) (db : VectorDB)
    (embedder : Option Embedder) (force_full : Bool) (batch_size : Nat)
    (h : (_read_events events_path (syncByteCursor db force_full)).1 = []) :
    sync_embeddings hash events_path db embedder force_full batch_size =
      ({ SyncReport.init with
          mode := syncMode db force_full, entries_scanned := 0 }, db) := by
  simp [sync_embeddings, h]

/-- After a clean (error-free) non-empty run, the cursor holds the scan's
end-of-file offset (sync.py lines 200–204). -/
theorem sync_clean_cursor (hash : String → String)
    (events_path : Option (List Line)) (db : VectorDB)
    (embedder : Option Embedder) (force_full : Bool) (batch_size : Nat)
    (hne : ¬ (_read_events events_path (syncByteCursor db force_full)).1 = [])
    (h1 : (sync_embeddings hash events_path db embedder force_full batch_size).1.errors = []) :
    (sync_embeddings hash events_path db embedder force_full batch_size).2.sync_cursor =
      some (end_offset_of events_path) := by
  unfold sync_embeddings at h1 ⊢
  dsimp only at h1 ⊢
  rw [if_neg (by rw [List.isEmpty_iff]; exact hne)] at h1 ⊢
  dsimp only at h1
  rw [if_pos (List.isEmpty_iff.mpr h1)]
  show some (_read_events events_path (syncByteCursor db force_full)).2.2 = _
  rw [read_events_end]

/-- First-run fixture entry for the idempotence analysis. -/
def fxC3_entry : Entry := ⟨"a", "T", [], "", [], "", false, none⟩

/-- A one-record log for the idempotence analysis. -/
def fxC3_lines : List Line := [⟨LineData.record fxC3_entry, 40⟩]

/-- An embedding provider that succeeds on every text. -/
def fxOkEmb : Embedder :=
  ⟨"prov", "mod", fun ts => Except.ok (ts.map (fun _ => ⟨[1], 1⟩))⟩

/-- **C3 counterexample.** A clean first run over a one-entry log advances
the cursor to end-of-file; the second run therefore scans zero entries and
counts zero skips, while the log still resolves to one active entry — so
"every active entry is counted as skipped on the second run" fails at this
input (0 ≠ 1), even though zero added/updated does hold. -/
theorem second_sync_skip_counterexample :
    (sync_embeddings (fun s => s) (some fxC3_lines) fxDB0 (some fxOkEmb)
      false 20).1.errors = [] ∧
    ¬ ((sync_embeddings (fun s => s) (some fxC3_lines)
          (sync_embeddings (fun s => s) (some fxC3_lines) fxDB0 (some fxOkEmb)
            false 20).2 (some fxOkEmb) false 20).1.entries_added = 0 ∧
       (sync_embeddings (fun s => s) (some fxC3_lines)
          (sync_embeddings (fun s => s) (some fxC3_lines) fxDB0 (some fxOkEmb)
            false 20).2 (some fxOkEmb) false 20).1.entries_updated = 0 ∧
       (sync_embeddings (fun s => s) (some fxC3_lines)
          (sync_embeddings (fun s => s) (some fxC3_lines) fxDB0 (some fxOkEmb)
            false 20).2 (some fxOkEmb) false 20).1.entries_skipped =
         ((load_events_latest_wins (some fxC3_lines) 0 false 0).1.filter
            (fun p => !p.2.deprecated)).length) := by
  decide

/-- **C3 (amended).** Running `sync_embeddings` twice with no lines
appended in between, the first run error-free and the second run in its
default incremental mode, yields a second-run report with zero added and
zero updated entries; the second run scans zero entries (the cursor
already points at end-of-file), so it also skips zero entries, and the
secondary store is returned unchanged.  (With `force_full`, unchanged
entries would instead be counted as skipped by the hash check.) -/
theorem second_sync_reports_nothing (hash : String → String)
    (events_path : Option (List Line)) (db : VectorDB)
    (embedder : Option Embedder) (force_full : Bool) (batch_size : Nat)
    (h1 : (sync_embeddings hash events_path db embedder force_full batch_size).1.errors = []) :
    (sync_embeddings hash events_path
        (sync_embeddings hash events_path db embedder force_full batch_size).2
        embedder false batch_size).1.entries_added = 0 ∧
    (sync_embeddings hash events_path
        (sync_embeddings hash events_path db embedder force_full batch_size).2
        embedder false batch_size).1.entries_updated = 0 ∧
    (sync_embeddings hash events_path
        (sync_embeddings hash events_path db embedder force_full batch_size).2
        embedder false batch_size).1.entries_scanned = 0 ∧
    (sync_embeddings hash events_path
        (sync_embeddings hash events_path db embedder force_full batch_size).2
        embedder false batch_size).1.entries_skipped = 0 ∧
    (sync_embeddings hash events_path
        (sync_embeddings hash events_path db embedder force_full batch_size).2
        embedder false batch_size).2 =
      (sync_embeddings hash events_path db embedder force_full batch_size).2 := by
  have hscan2 : (_read_events events_path
      (syncByteCursor (sync_embeddings hash events_path db embedder
        force_full batch_size).2 false)).1 = [] := by
    by_cases hempty : (_read_events events_path (syncByteCursor db force_full)).1 = []
    · have hdb1 : (sync_embeddings hash events_path db embedder force_full
          batch_size).2 = db := by
        rw [sync_run_empty hash events_path db embedder force_full batch_size hempty]
      rw [hdb1]
      cases force_full with
      | false => exact hempty
      | true =>
        cases events_path with
        | none => rfl
        | some lines =>
          have hs : scanLines true 0 lines 0 [] = [] := hempty
          exact read_scan_empty_any_cursor lines hs _
    · cases events_path with
      | none => exact absurd rfl hempty
      | some lines =>
        have hcur : (sync_embeddings hash (some lines) db embedder force_full
            batch_size).2.sync_cursor = some (fileSize lines) :=
          sync_clean_cursor hash (some lines) db embedder force_full batch_size
            hempty h1
        by_cases hfs : 0 < fileSize lines
        · have hc2 : syncByteCursor (sync_embeddings hash (some lines) db
              embedder force_full batch_size).2 false = fileSize lines := by
            have hstep : syncByteCursor (sync_embeddings hash (some lines) db
                embedder force_full batch_size).2 false =
                (match (sync_embeddings hash (some lines) db embedder force_full
                    batch_size).2.sync_cursor with
                 | some c => if 0 < c then c else 0
                 | none => 0) := rfl
            rw [hstep, hcur]
            exact if_pos hfs
          rw [hc2]
          unfold _read_events load_events_latest_wins
          dsimp only
          rw [if_pos hfs, dropBytes_fileSize]
          rfl
        · have hl0 : lines = [] := fileSize_eq_zero lines (by omega)
          subst hl0
          refine absurd ?_ hempty
          unfold _read_events load_events_latest_wins
          dsimp only
          split
          · rw [show dropBytes (syncByteCursor db force_full) [] = []
              from by rw [dropBytes]]
            rfl
          · rfl
  rw [sync_run_empty hash events_path _ embedder false batch_size hscan2]
  exact ⟨rfl, rfl, rfl, rfl, rfl⟩

/-- Witness for C3: after the clean concrete first run, the second run
scans zero entries. -/
theorem second_sync_reports_nothing_witness :
    (sync_embeddings (fun s => s) (some fxC3_lines)
        (sync_embeddings (fun s => s) (some fxC3_lines) fxDB0 (some fxOkEmb)
          false 20).2 (some fxOkEmb) false 20).1.entries_scanned = 0 :=
  (second_sync_reports_nothing (fun s => s) (some fxC3_lines) fxDB0
    (some fxOkEmb) false 20 (by decide)).2.2.1

/-! ## Batch failure isolation -/

theorem storeOne_errors (emb : Embedder) (acc : VectorDB × SyncReport)
    (pr : EmbItem × EmbedResult) :
    ((storeOne emb acc pr).2).errors = acc.2.errors := by
  unfold storeOne
  dsimp only
  split <;> rfl

theorem foldlStore_errors (emb : Embedder) (prs : List (EmbItem × EmbedResult)) :
    ∀ acc, ((prs.foldl (storeOne emb) acc).2).errors = acc.2.errors := by
  induction prs with
  | nil => intro acc; rfl
  | cons pr rest ih =>
    intro acc
    rw [List.foldl_cons, ih, storeOne_errors]

theorem processBatch_errors_mono (emb : Embedder) (start : Nat)
    (batch : List EmbItem) (acc : VectorDB × SyncReport) :
    ∃ t, ((processBatch emb start batch acc).2).errors = acc.2.errors ++ t := by
  unfold processBatch
  cases emb.embed_documents (batch.map (fun it => it.text)) with
  | error e => exact ⟨[batchErrMsg start batch.length e], rfl⟩
  | ok results => exact ⟨[], by rw [foldlStore_errors, List.append_nil]⟩

theorem batchLoop_errors_mono (emb : Embedder) (bs : Nat) :
    ∀ (n : Nat) (items : List EmbItem) (start : Nat)
      (acc : VectorDB × SyncReport), items.length = n →
      ∃ t, ((batchLoop emb bs start items acc).2).errors = acc.2.errors ++ t := by
  intro n
  induction n using Nat.strong_induction_on with
  | _ n ih =>
    intro items start acc hn
    by_cases hne : items = []
    · subst hne; exact ⟨[], (List.append_nil _).symm⟩
    · by_cases hbs : bs = 0
      · subst hbs
        rw [batchLoop_bszero]
        exact ⟨[], (List.append_nil _).symm⟩
      · rw [batchLoop_step emb bs start items acc hbs hne]
        have hd : (items.drop bs).length < n := by
          simp only [List.length_drop]
          have := List.length_pos.mpr hne
          omega
        obtain ⟨t', ht'⟩ := ih _ hd (items.drop bs) (start + bs)
          (processBatch emb start (items.take bs) acc) rfl
        obtain ⟨t0, ht0⟩ := processBatch_errors_mono emb start (items.take bs) acc
        exact ⟨t0 ++ t', by rw [ht', ht0, List.append_assoc]⟩

theorem storeOne_vectors_other (emb : Embedder) (acc : VectorDB × SyncReport)
    (pr : EmbItem × EmbedResult) (id : String) (h : pr.1.entry_id ≠ id) :
    alookup id ((storeOne emb acc pr).1).vectors =
      alookup id acc.1.vectors := by
  unfold storeOne
  dsimp only
  split <;>
    exact alookup_aupsert_ne pr.1.entry_id id _ acc.1.vectors (Ne.symm h)

theorem foldlStore_vectors_other (emb : Embedder)
    (prs : List (EmbItem × EmbedResult)) (id : String) :
    ∀ acc, (∀ pr ∈ prs, pr.1.entry_id ≠ id) →
      alookup id ((prs.foldl (storeOne emb) acc).1).vectors =
        alookup id acc.1.vectors := by
  induction prs with
  | nil => intro acc _; rfl
  | cons pr rest ih =>
    intro acc h
    rw [List.foldl_cons,
      ih _ (fun pr' hpr' => h pr' (List.mem_cons_of_mem _ hpr')),
      storeOne_vectors_other emb acc pr id (h pr (List.mem_cons_self _ _))]

theorem processBatch_vectors_other (emb : Embedder) (start : Nat)
    (batch : List EmbItem) (acc : VectorDB × SyncReport) (id : String)
    (h : ∀ it ∈ batch, it.entry_id ≠ id) :
    alookup id ((processBatch emb start batch acc).1).vectors =
      alookup id acc.1.vectors := by
  unfold processBatch
  cases emb.embed_documents (batch.map (fun it => it.text)) with
  | error e => rfl
  | ok results =>
    exact foldlStore_vectors_other emb _ id acc
      (fun pr hpr => h pr.1 (List.of_mem_zip hpr).1)

theorem batchLoop_vectors_other (emb : Embedder) (bs : Nat) :
    ∀ (n : Nat) (items : List EmbItem) (start : Nat)
      (acc : VectorDB × SyncReport) (id : String), items.length = n →
      (∀ it ∈ items, it.entry_id ≠ id) →
      alookup id ((batchLoop emb bs start items acc).1).vectors =
        alookup id acc.1.vectors := by
  intro n
  induction n using Nat.strong_induction_on with
  | _ n ih =>
    intro items start acc id hn h
    by_cases hne : items = []
    · subst hne; rfl
    · by_cases hbs : bs = 0
      · subst hbs; rw [batchLoop_bszero]
      · rw [batchLoop_step emb bs start items acc hbs hne]
        have hd : (items.drop bs).length < n := by
          simp only [List.length_drop]
          have := List.length_pos.mpr hne
          omega
        rw [ih _ hd (items.drop bs) (start + bs) _ id rfl
          (fun it hit => h it (List.mem_of_mem_drop hit))]
        exact processBatch_vectors_other emb start (items.take bs) acc id
          (fun it hit => h it (List.mem_of_mem_take hit))

/-- **C6.** Batch failure isolation in the embedding loop run by
`sync_embeddings` (sync.py lines 165–198): when the provider call for the
first pending batch fails, the formatted error is recorded in the report,
none of that batch's entries has a vector upserted during the run, and the
loop continues on the remaining batches exactly as if called on them —
the pass is not aborted. -/
theorem batch_failure_isolated (emb : Embedder) (bs start : Nat)
    (items : List EmbItem) (db : VectorDB) (r : SyncReport) (e : String)
    (hbs : bs ≠ 0) (hne : items ≠ [])
    (hfail : emb.embed_documents ((items.take bs).map (fun it => it.text)) =
      Except.error e)
    (hnodup : (items.map (fun it => it.entry_id)).Nodup) :
    batchLoop emb bs start items (db, r) =
      batchLoop emb bs (start + bs) (items.drop bs)
        (db, { r with errors :=
            r.errors ++ [batchErrMsg start (items.take bs).length e] }) ∧
    batchErrMsg start (items.take bs).length e ∈
      (batchLoop emb bs start items (db, r)).2.errors ∧
    (∀ it ∈ items.take bs,
      alookup it.entry_id ((batchLoop emb bs start items (db, r)).1).vectors =
        alookup it.entry_id db.vectors) := by
  have hpb : processBatch emb start (items.take bs) (db, r) =
      (db, { r with errors :=
        r.errors ++ [batchErrMsg start (items.take bs).length e] }) := by
    unfold processBatch
    rw [hfail]
  have hcont : batchLoop emb bs start items (db, r) =
      batchLoop emb bs (start + bs) (items.drop bs)
        (db, { r with errors :=
          r.errors ++ [batchErrMsg start (items.take bs).length e] }) := by
    rw [batchLoop_step emb bs start items (db, r) hbs hne, hpb]
  refine ⟨hcont, ?_, ?_⟩
  · rw [hcont]
    obtain ⟨t, ht⟩ := batchLoop_errors_mono emb bs (items.drop bs).length
      (items.drop bs) (start + bs) _ rfl
    rw [ht]
    refine List.mem_append_left t ?_
    exact List.mem_append_right r.errors (List.mem_singleton_self _)
  · intro it hit
    rw [hcont]
    have hdisj : ∀ it' ∈ items.drop bs, it'.entry_id ≠ it.entry_id := by
      intro it' hit' heq
      have hsplit : items.map (fun x => x.entry_id) =
          (items.take bs).map (fun x => x.entry_id) ++
          (items.drop bs).map (fun x => x.entry_id) := by
        rw [← List.map_append, List.take_append_drop]
      rw [hsplit] at hnodup
      have := (List.nodup_append.mp hnodup).2.2
      exact this (List.mem_map_of_mem _ hit)
        (by rw [← heq]; exact List.mem_map_of_mem _ hit')
    rw [batchLoop_vectors_other emb bs (items.drop bs).length (items.drop bs)
      (start + bs) _ it.entry_id rfl hdisj]

/-- Witness for C6: a one-item batch whose provider call fails leaves its
formatted error in the report. -/
theorem batch_failure_isolated_witness :
    batchErrMsg 0 1 "boom" ∈
      (batchLoop fxFailEmb 20 0 [⟨"a", fxC1_entry, "T", "T"⟩]
        (fxDB0, SyncReport.init)).2.errors :=
  (batch_failure_isolated fxFailEmb 20 0 [⟨"a", fxC1_entry, "T", "T"⟩]
    fxDB0 SyncReport.init "boom" (by decide) (by decide) rfl (by decide)).2.1

/-! ## Full-text indexing without an embedding provider -/

theorem needs_update_congr (a b : VectorDB) (h : a.vectors = b.vectors)
    (id hsh : String) : a.needs_update id hsh = b.needs_update id hsh := by
  unfold VectorDB.needs_update
  rw [h]

theorem processActive_vectors (hash : String → String) (emb : Option Embedder)
    (acc : VectorDB × SyncReport × List EmbItem) (p : String × Entry) :
    ((processActive hash emb acc p).1).vectors = acc.1.vectors := by
  unfold processActive
  dsimp only
  split
  · rfl
  · split <;> rfl

theorem processActive_toembed_none (hash : String → String)
    (acc : VectorDB × SyncReport × List EmbItem) (p : String × Entry) :
    ((processActive hash (none : Option Embedder) acc p).2.2) = acc.2.2 := by
  unfold processActive
  dsimp only
  split <;> rfl

theorem foldlActive_toembed_none (hash : String → String)
    (ps : List (String × Entry)) :
    ∀ (acc : VectorDB × SyncReport × List EmbItem),
      ((ps.foldl (processActive hash none) acc).2.2) = acc.2.2 := by
  induction ps with
  | nil => intro acc; rfl
  | cons p rest ih =>
    intro acc
    rw [List.foldl_cons, ih, processActive_toembed_none]

theorem foldlActive_vectors (hash : String → String) (emb : Option Embedder)
    (ps : List (String × Entry)) :
    ∀ (acc : VectorDB × SyncReport × List EmbItem),
      ((ps.foldl (processActive hash emb) acc).1).vectors = acc.1.vectors := by
  induction ps with
  | nil => intro acc; rfl
  | cons p rest ih =>
    intro acc
    rw [List.foldl_cons, ih, processActive_vectors]

theorem processActive_fts_other (hash : String → String) (emb : Option Embedder)
    (acc : VectorDB × SyncReport × List EmbItem) (p : String × Entry)
    (key : String) (h : p.1 ≠ key) :
    alookup key ((processActive hash emb acc p).1).fts =
      alookup key acc.1.fts := by
  unfold processActive
  dsimp only
  split
  · rfl
  · split <;>
      exact alookup_aupsert_ne p.1 key _ acc.1.fts (Ne.symm h)

theorem foldlActive_fts_other (hash : String → String) (emb : Option Embedder)
    (ps : List (String × Entry)) (key : String)
    (h : ∀ q ∈ ps, q.1 ≠ key) :
    ∀ (acc : VectorDB × SyncReport × List EmbItem),
      alookup key ((ps.foldl (processActive hash emb) acc).1).fts =
        alookup key acc.1.fts := by
  induction ps with
  | nil => intro acc; rfl
  | cons q rest ih =>
    intro acc
    rw [List.foldl_cons,
      ih (fun q' hq' => h q' (List.mem_cons_of_mem _ hq')) _,
      processActive_fts_other hash emb acc q key (h q (List.mem_cons_self _ _))]

theorem foldlActive_none_fts (hash : String → String) (db : VectorDB) :
    ∀ (ps : List (String × Entry)) (acc : VectorDB × SyncReport × List EmbItem),
      acc.1.vectors = db.vectors → (ps.map Prod.fst).Nodup →
      ∀ p ∈ ps, db.needs_update p.1 (hash (build_embedding_text p.2)) = true →
        alookup p.1 ((ps.foldl (processActive hash none) acc).1).fts =
          some (build_fts_fields p.2) := by
  intro ps
  induction ps with
  | nil => intro acc _ _ p hp; exact absurd hp (List.not_mem_nil p)
  | cons q rest ih =>
    intro acc hvec hnodup p hp hneed
    rw [List.foldl_cons]
    rcases List.mem_cons.mp hp with rfl | hmem
    · have hkey_not : ∀ q' ∈ rest, q'.1 ≠ p.1 := by
        intro q' hq' heq
        exact (List.nodup_cons.mp hnodup).1
          (by rw [← heq]; exact List.mem_map_of_mem Prod.fst hq')
      rw [foldlActive_fts_other hash none rest p.1 hkey_not _]
      have hnu : acc.1.needs_update p.1 (hash (build_embedding_text p.2)) = true := by
        rw [needs_update_congr acc.1 db hvec]
        exact hneed
      unfold processActive
      dsimp only
      rw [hnu]
      simp only [Bool.not_true]
      rw [if_neg Bool.false_ne_true]
      exact alookup_aupsert_self p.1 _ _
    · exact ih (processActive hash none acc q)
        (by rw [processActive_vectors, hvec]) (List.nodup_cons.mp hnodup).2
        p hmem hneed

theorem foldlActive_none_count (hash : String → String) (db : VectorDB) :
    ∀ (ps : List (String × Entry)) (acc : VectorDB × SyncReport × List EmbItem),
      acc.1.vectors = db.vectors →
      ((ps.foldl (processActive hash none) acc).2.1).entries_fts_only =
        acc.2.1.entries_fts_only + (ps.filter (fun p =>
          db.needs_update p.1 (hash (build_embedding_text p.2)))).length := by
  intro ps
  induction ps with
  | nil => intro acc _; simp [List.filter_nil]
  | cons q rest ih =>
    intro acc hvec
    rw [List.foldl_cons, ih _ (by rw [processActive_vectors, hvec])]
    have hnuq : acc.1.needs_update q.1 (hash (build_embedding_text q.2)) =
        db.needs_update q.1 (hash (build_embedding_text q.2)) :=
      needs_update_congr acc.1 db hvec q.1 _
    cases hneed : db.needs_update q.1 (hash (build_embedding_text q.2)) with
    | true =>
      have hstep : ((processActive hash none acc q).2.1).entries_fts_only =
          acc.2.1.entries_fts_only + 1 := by
        unfold processActive
        dsimp only
        rw [hnuq, hneed]
        rfl
      rw [hstep]
      simp only [List.filter_cons, hneed, if_true, List.length_cons]
      omega
    | false =>
      have hstep : ((processActive hash none acc q).2.1).entries_fts_only =
          acc.2.1.entries_fts_only := by
        unfold processActive
        dsimp only
        rw [hnuq, hneed]
        rfl
      rw [hstep]
      simp only [List.filter_cons, hneed]
      rw [if_neg Bool.false_ne_true]

/-- **C7.** In the active-entries loop of `sync_embeddings` run with no
embedding provider (`embedder = None`), every active entry whose content
hash is new or changed still has its full-text projection written via
`upsert_fts` and is counted as fts-only; only the vector sync is skipped —
no item is queued for embedding and the vector table and cursor are left
untouched. -/
theorem fts_updated_without_embedder (hash : String → String) (db : VectorDB)
    (r : SyncReport) (active : List (String × Entry))
    (hnodup : (active.map Prod.fst).Nodup) :
    ((active.foldl (processActive hash none) (db, r, [])).2.2 = []) ∧
    ((active.foldl (processActive hash none) (db, r, [])).1).vectors =
      db.vectors ∧
    ((active.foldl (processActive hash none) (db, r, [])).1).sync_cursor =
      db.sync_cursor ∧
    (∀ p ∈ active,
      db.needs_update p.1 (hash (build_embedding_text p.2)) = true →
      alookup p.1 ((active.foldl (processActive hash none) (db, r, [])).1).fts =
        some (build_fts_fields p.2)) ∧
    ((active.foldl (processActive hash none) (db, r, [])).2.1).entries_fts_only =
      r.entries_fts_only + (active.filter (fun p =>
        db.needs_update p.1 (hash (build_embedding_text p.2)))).length := by
  refine ⟨foldlActive_toembed_none hash active (db, r, []),
    foldlActive_vectors hash none active (db, r, []),
    foldlActive_cursor hash none active (db, r, []), ?_, ?_⟩
  · intro p hp hneed
    exact foldlActive_none_fts hash db active (db, r, []) rfl hnodup p hp hneed
  · exact foldlActive_none_count hash db active (db, r, []) rfl

/-- Witness for C7: one new active entry, no embedder — its FTS row is
written and it is counted fts-only. -/
theorem fts_updated_without_embedder_witness :
    alookup "a" (([(("a" : String), fxC1_entry)].foldl
      (processActive (fun s => s) none) (fxDB0, SyncReport.init, [])).1).fts =
      some (build_fts_fields fxC1_entry) :=
  (fts_updated_without_embedder (fun s => s) fxDB0 SyncReport.init
    [("a", fxC1_entry)] (by decide)).2.2.2.1 ("a", fxC1_entry)
    (List.mem_singleton_self _) (by decide)

/-! ## Cross-batch dedup ordering in `batch_validate` -/

theorem validate_schema_id (e : Entry) (h : (validate_schema e).valid = true) :
    e.id ≠ "" := by
  intro hid
  unfold validate_schema at h
  rw [if_pos hid] at h
  cases h

theorem processCandidate_valid_cases (sim : String → String → ℚ) (θ : ℚ)
    (existing : List (String × Entry))
    (S : BatchValidateResult × List (String × Entry)) (c : Entry) :
    ((processCandidate sim θ existing S c).1).valid = S.1.valid ∨
    ((processCandidate sim θ existing S c).1).valid = S.1.valid ++ [c] := by
  unfold processCandidate
  dsimp only
  split
  · exact Or.inl rfl
  · split
    · exact Or.inl rfl
    · split
      · exact Or.inl rfl
      · exact Or.inr rfl

theorem processCandidate_vsf_other (sim : String → String → ℚ) (θ : ℚ)
    (existing : List (String × Entry))
    (S : BatchValidateResult × List (String × Entry)) (c : Entry)
    (key : String) (h : c.id ≠ key) :
    alookup key ((processCandidate sim θ existing S c).2) =
      alookup key S.2 := by
  unfold processCandidate
  dsimp only
  split
  · rfl
  · split
    · rfl
    · split
      · rfl
      · by_cases hid : c.id = ""
        · rw [if_neg (fun hcon => hcon hid)]
        · rw [if_pos hid]
          exact alookup_aupsert_ne c.id key _ S.2 (Ne.symm h)

theorem foldCandidates_valid_subset (sim : String → String → ℚ) (θ : ℚ)
    (existing : List (String × Entry)) (l : List Entry) :
    ∀ (S : BatchValidateResult × List (String × Entry)) (x : Entry),
      x ∈ ((l.foldl (processCandidate sim θ existing) S).1).valid →
      x ∈ S.1.valid ∨ x ∈ l := by
  induction l with
  | nil => intro S x hx; exact Or.inl hx
  | cons c rest ih =>
    intro S x hx
    rw [List.foldl_cons] at hx
    rcases ih _ x hx with hS | hr
    · rcases processCandidate_valid_cases sim θ existing S c with hc | hc
      · rw [hc] at hS
        exact Or.inl hS
      · rw [hc] at hS
        rcases List.mem_append.mp hS with hS' | hone
        · exact Or.inl hS'
        · exact Or.inr (by rw [List.mem_singleton.mp hone]; exact List.mem_cons_self c rest)
    · exact Or.inr (List.mem_cons_of_mem c hr)

theorem processCandidate_duplicates_mono (sim : String → String → ℚ) (θ : ℚ)
    (existing : List (String × Entry))
    (S : BatchValidateResult × List (String × Entry)) (c : Entry) :
    ∃ t, ((processCandidate sim θ existing S c).1).duplicates =
      S.1.duplicates ++ t := by
  unfold processCandidate
  dsimp only
  split
  · exact ⟨[], (List.append_nil _).symm⟩
  · split
    · exact ⟨[(c, check_duplicates sim θ c existing)], rfl⟩
    · split
      · exact ⟨[(c, check_duplicates sim θ c S.2)], rfl⟩
      · exact ⟨[], (List.append_nil _).symm⟩

theorem foldCandidates_duplicates_mono (sim : String → String → ℚ) (θ : ℚ)
    (existing : List (String × Entry)) (l : List Entry) :
    ∀ (S : BatchValidateResult × List (String × Entry)),
      ∃ t, ((l.foldl (processCandidate sim θ existing) S).1).duplicates =
        S.1.duplicates ++ t := by
  induction l with
  | nil => intro S; exact ⟨[], (List.append_nil _).symm⟩
  | cons c rest ih =>
    intro S
    rw [List.foldl_cons]
    obtain ⟨t', ht'⟩ := ih (processCandidate sim θ existing S c)
    obtain ⟨t0, ht0⟩ := processCandidate_duplicates_mono sim θ existing S c
    exact ⟨t0 ++ t', by rw [ht', ht0, List.append_assoc]⟩

theorem foldCandidates_vsf_other (sim : String → String → ℚ) (θ : ℚ)
    (existing : List (String × Entry)) (l : List Entry) (key : String)
    (h : ∀ c ∈ l, c.id ≠ key) :
    ∀ (S : BatchValidateResult × List (String × Entry)),
      alookup key ((l.foldl (processCandidate sim θ existing) S).2) =
        alookup key S.2 := by
  induction l with
  | nil => intro S; rfl
  | cons c rest ih =>
    intro S
    rw [List.foldl_cons,
      ih (fun c' hc' => h c' (List.mem_cons_of_mem _ hc')) _,
      processCandidate_vsf_other sim θ existing S c key
        (h c (List.mem_cons_self _ _))]

theorem processCandidate_accept (sim : String → String → ℚ) (θ : ℚ)
    (existing : List (String × Entry))
    (S : BatchValidateResult × List (String × Entry)) (a : Entry)
    (hnot : a ∉ S.1.valid)
    (hin : a ∈ ((processCandidate sim θ existing S a).1).valid) :
    (validate_schema a).valid = true ∧
    (processCandidate sim θ existing S a).2 = aupsert a.id a S.2 := by
  revert hin
  unfold processCandidate
  dsimp only
  split
  · intro hin; exact absurd hin hnot
  · rename_i hval
    have hvalid : (validate_schema a).valid = true := by
      rcases hb : (validate_schema a).valid with _ | _
      · exact absurd (by rw [hb]; rfl) hval
      · rfl
    split
    · intro hin; exact absurd hin hnot
    · split
      · intro hin; exact absurd hin hnot
      · intro _
        refine ⟨hvalid, ?_⟩
        rw [if_pos (validate_schema_id a hvalid)]

theorem check_duplicates_of_mem (sim : String → String → ℚ) (θ : ℚ)
    (c : Entry) (st : List (String × Entry)) (key : String) (a : Entry)
    (hmem : alookup key st = some a)
    (hsim : θ ≤ sim (build_dedup_text c) (build_dedup_text a)) :
    (check_duplicates sim θ c st).is_duplicate = true := by
  unfold check_duplicates
  dsimp only
  have hmem' : (key, a) ∈ st := alookup_mem key a st hmem
  have hhit : (key, sim (build_dedup_text c) (build_dedup_text a)) ∈
      st.filterMap (fun p =>
        if θ ≤ sim (build_dedup_text c) (build_dedup_text p.2) then
          some (p.1, sim (build_dedup_text c) (build_dedup_text p.2))
        else none) :=
    List.mem_filterMap.mpr ⟨(key, a), hmem', by rw [if_pos hsim]⟩
  rcases hh : st.filterMap (fun p =>
      if θ ≤ sim (build_dedup_text c) (build_dedup_text p.2) then
        some (p.1, sim (build_dedup_text c) (build_dedup_text p.2))
      else none) with _ | ⟨x, xs⟩
  · rw [hh] at hhit
    exact absurd hhit (List.not_mem_nil _)
  · rw [hh]
    rfl

theorem processCandidate_flag (sim : String → String → ℚ) (θ : ℚ)
    (existing : List (String × Entry))
    (S : BatchValidateResult × List (String × Entry)) (b : Entry)
    (hschema : (validate_schema b).valid = true)
    (hnolog : (check_duplicates sim θ b existing).is_duplicate = false)
    (hcross : (check_duplicates sim θ b S.2).is_duplicate = true)
    (hvsfne : S.2 ≠ []) :
    processCandidate sim θ existing S b =
      ({ S.1 with duplicates :=
          S.1.duplicates ++ [(b, check_duplicates sim θ b S.2)] }, S.2) := by
  have hie : S.2.isEmpty = false := by
    rcases hb : S.2.isEmpty with _ | _
    · rfl
    · exact absurd (List.isEmpty_iff.mp hb) hvsfne
  unfold processCandidate
  dsimp only
  rw [if_neg (by rw [hschema]; exact Bool.false_ne_true)]
  rw [if_neg (by rw [hnolog]; exact Bool.false_ne_true)]
  rw [if_pos (by rw [hie, hcross]; rfl)]

/-- **C8 (amended).** Cross-batch dedup ordering in `batch_validate`
(scanner.py lines 488–522): take a batch containing candidates `a` before
`b`, both schema-valid, `b` not a duplicate of the durable log state, and
`b` similar to `a` at or above the threshold.  Provided the earlier
candidate `a` is in fact accepted (no still-earlier accepted near-duplicate
claimed it first), and no entry between them re-binds `a`'s id, the later
candidate `b` is flagged as a duplicate and is not accepted — so the pair
is never both accepted nor both flagged. -/
theorem cross_batch_dedup_order (sim : String → String → ℚ) (θ : ℚ)
    (events_path : Option (List Line)) (pre mid post : List Entry)
    (a b : Entry)
    (hb_schema : (validate_schema b).valid = true)
    (hb_log : (check_duplicates sim θ b
      (load_events_latest_wins events_path 0 false 0).1).is_duplicate = false)
    (hsim : θ ≤ sim (build_dedup_text b) (build_dedup_text a))
    (hsim' : θ ≤ sim (build_dedup_text a) (build_dedup_text b))
    (ha_acc : a ∈ (batch_validate sim θ (pre ++ a :: mid ++ b :: post)
      events_path).valid)
    (hmid_id : ∀ c ∈ mid, c.id ≠ a.id)
    (ha_pre : a ∉ pre) (ha_mid : a ∉ mid) (ha_post : a ∉ post)
    (hb_pre : b ∉ pre) (hb_mid : b ∉ mid) (hb_post : b ∉ post)
    (hab : b ≠ a) :
    (∃ d, (b, d) ∈ (batch_validate sim θ (pre ++ a :: mid ++ b :: post)
      events_path).duplicates) ∧
    b ∉ (batch_validate sim θ (pre ++ a :: mid ++ b :: post)
      events_path).valid := by
  unfold batch_validate at ha_acc ⊢
  dsimp only at ha_acc ⊢
  rw [List.foldl_append, List.foldl_cons, List.foldl_append, List.foldl_cons]
    at ha_acc ⊢
  set existing := (load_events_latest_wins events_path 0 false 0).1 with hex
  set S0 : BatchValidateResult × List (String × Entry) :=
    (⟨[], [], [], (pre ++ a :: mid ++ b :: post).length⟩, []) with hS0
  set S1 := pre.foldl (processCandidate sim θ existing) S0 with hS1
  set S2 := processCandidate sim θ existing S1 a with hS2
  set S3 := mid.foldl (processCandidate sim θ existing) S2 with hS3
  set S4 := processCandidate sim θ existing S3 b with hS4
  -- a is accepted exactly at its designated position
  have ha_S4 : a ∈ S4.1.valid := by
    rcases foldCandidates_valid_subset sim θ existing post S4 a ha_acc with h | h
    · exact h
    · exact absurd h ha_post
  have ha_S3 : a ∈ S3.1.valid := by
    rcases processCandidate_valid_cases sim θ existing S3 b with hc | hc
    · rw [hS4, hc] at ha_S4
      exact ha_S4
    · rw [hS4, hc] at ha_S4
      rcases List.mem_append.mp ha_S4 with h | h
      · exact h
      · exact absurd (List.mem_singleton.mp h).symm hab
  have ha_S2 : a ∈ S2.1.valid := by
    rcases foldCandidates_valid_subset sim θ existing mid S2 a ha_S3 with h | h
    · exact h
    · exact absurd h ha_mid
  have ha_not_S1 : a ∉ S1.1.valid := by
    intro h
    rcases foldCandidates_valid_subset sim θ existing pre S0 a h with h0 | h0
    · exact absurd h0 (List.not_mem_nil a)
    · exact absurd h0 ha_pre
  obtain ⟨ha_valid, hS2_vsf⟩ :=
    processCandidate_accept sim θ existing S1 a ha_not_S1 ha_S2
  -- at b's turn the map still binds a.id to a
  have halookup : alookup a.id S3.2 = some a := by
    rw [hS3, foldCandidates_vsf_other sim θ existing mid a.id hmid_id S2,
      hS2, hS2_vsf]
    exact alookup_aupsert_self a.id a S1.2
  have hvsfne : S3.2 ≠ [] := by
    intro hnil
    rw [hnil] at halookup
    cases halookup
  have hcross : (check_duplicates sim θ b S3.2).is_duplicate = true :=
    check_duplicates_of_mem sim θ b S3.2 a.id a halookup hsim
  have hflag : S4 = ({ S3.1 with duplicates :=
      S3.1.duplicates ++ [(b, check_duplicates sim θ b S3.2)] }, S3.2) :=
    processCandidate_flag sim θ existing S3 b hb_schema hb_log hcross hvsfne
  constructor
  · refine ⟨check_duplicates sim θ b S3.2, ?_⟩
    obtain ⟨t, ht⟩ := foldCandidates_duplicates_mono sim θ existing post S4
    rw [ht, hflag]
    exact List.mem_append_left t
      (List.mem_append_right S3.1.duplicates (List.mem_singleton_self _))
  · intro hb_in
    rcases foldCandidates_valid_subset sim θ existing post S4 b hb_in with h4 | h4
    · rw [hflag] at h4
      rcases foldCandidates_valid_subset sim θ existing mid S2 b h4 with h2 | h2
      · rcases processCandidate_valid_cases sim θ existing S1 a with hc | hc
        · rw [hS2, hc] at h2
          rcases foldCandidates_valid_subset sim θ existing pre S0 b h2 with h0 | h0
          · exact absurd h0 (List.not_mem_nil b)
          · exact absurd h0 hb_pre
        · rw [hS2, hc] at h2
          rcases List.mem_append.mp h2 with h1 | h1
          · rcases foldCandidates_valid_subset sim θ existing pre S0 b h1 with h0 | h0
            · exact absurd h0 (List.not_mem_nil b)
            · exact absurd h0 hb_pre
          · exact absurd (List.mem_singleton.mp h1) hab
      · exact absurd h2 hb_mid
    · exact absurd h4 hb_post

/-- Fixture candidates for the dedup-cluster analysis: three schema-valid
entries with distinct ids and identical canonical texts. -/
def fxC8_c : Entry := ⟨"c", "Same title", [], "", [], "", false, none⟩

/-- Second member of the cluster. -/
def fxC8_a : Entry := ⟨"a", "Same title", [], "", [], "", false, none⟩

/-- Third member of the cluster. -/
def fxC8_b : Entry := ⟨"b", "Same title", [], "", [], "", false, none⟩

/-- Exact-match similarity: 1 when the canonical texts coincide, else 0. -/
def fxSim (s t : String) : ℚ := if s = t then 1 else 0

/-- **C8 counterexample.** With three near-identical candidates `c, a, b`
submitted together against an empty log, the pair `(a, b)` satisfies every
premise of the claim — mutual similarity at threshold, both schema-valid,
neither a duplicate of the log state — yet the earlier member `a` is *not*
accepted (it is flagged against the still-earlier accepted `c`), refuting
"the candidate earlier in input order is accepted". -/
theorem batch_dedup_cluster_counterexample :
    (validate_schema fxC8_a).valid = true ∧
    (validate_schema fxC8_b).valid = true ∧
    (check_duplicates fxSim 1 fxC8_a
      (load_events_latest_wins none 0 false 0).1).is_duplicate = false ∧
    (check_duplicates fxSim 1 fxC8_b
      (load_events_latest_wins none 0 false 0).1).is_duplicate = false ∧
    1 ≤ fxSim (build_dedup_text fxC8_b) (build_dedup_text fxC8_a) ∧
    1 ≤ fxSim (build_dedup_text fxC8_a) (build_dedup_text fxC8_b) ∧
    fxC8_a ∉ (batch_validate fxSim 1 [fxC8_c, fxC8_a, fxC8_b] none).valid ∧
    (batch_validate fxSim 1 [fxC8_c, fxC8_a, fxC8_b] none).valid =
      [fxC8_c] := by
  decide

/-- Witness for C8: the two-candidate batch `[a, b]` — the first is
accepted, so the theorem flags the second. -/
theorem cross_batch_dedup_order_witness :
    (∃ d, (fxC8_b, d) ∈ (batch_validate fxSim 1 ([] ++ fxC8_a :: [] ++
      fxC8_b :: []) none).duplicates) ∧
    fxC8_b ∉ (batch_validate fxSim 1 ([] ++ fxC8_a :: [] ++ fxC8_b :: [])
      none).valid :=
  cross_batch_dedup_order fxSim 1 none [] [] [] fxC8_a fxC8_b (by decide)
    (by decide) (by decide) (by decide) (by decide)
    (by intro c hc; exact absurd hc (List.not_mem_nil c))
    (by decide) (by decide) (by decide) (by decide) (by decide) (by decide)
    (by decide)

end EFMemory
